import Mathlib

/-!
Verification of the dagoba in-memory graph database (src/dagoba.js) against
its specification.  The JavaScript source is shallowly embedded: JS `Map`s
become insertion-ordered association lists with JS `Map.set` semantics
(overwriting keeps the original position), object mutation becomes explicit
record update, and JS exceptions (TypeError on dereferencing a falsy value)
become `Option`-valued functions returning `none`.
-/

namespace Dagoba

/-- Association-list lookup: first entry with the given key (JS `Map.get`). -/
def lookupA {κ α : Type} [DecidableEq κ] : List (κ × α) → κ → Option α
  | [], _ => none
  | p :: ps, k => if p.1 = k then some p.2 else lookupA ps k

/-- JS `Map.set`: overwrite the entry in place when the key is present,
append a new entry otherwise (preserving insertion order of `values()`). -/
def mapSet {κ α : Type} [DecidableEq κ] (m : List (κ × α)) (k : κ) (v : α) :
    List (κ × α) :=
  if (lookupA m k).isSome then
    m.map (fun p => if p.1 = k then (k, v) else p)
  else
    m ++ [(k, v)]

/-- Update the record stored under key `k` by `f`, leaving keys unchanged
(models in-place mutation of the object held in a JS `Map`). -/
def mapAdjust {α : Type} (m : List (Nat × α)) (k : Nat) (f : α → α) :
    List (Nat × α) :=
  m.map (fun p => if p.1 = k then (p.1, f p.2) else p)

/-- An edge object after `addEdge` resolved its endpoints.  `eid` is a model
artifact tagging the distinct JS object identity of each inserted edge
(insertion counter); `outId`/`inId` are the `_id`s of the `_out` (source) and
`_in` (target) vertex objects the edge references. -/
structure EdgeRec where
  eid : Nat
  outId : Nat
  inId : Nat
  label : String
  eprops : List (String × String)
deriving DecidableEq

/-- A vertex object: `_id`, user properties, and the `_out` / `_in`
adjacency arrays of edge objects (edges are immutable once inserted, so
storing edge values models the JS references faithfully). -/
structure VertexRec where
  vid : Nat
  props : List (String × String)
  outE : List EdgeRec
  inE : List EdgeRec
deriving DecidableEq

/-- A vertex as supplied by the caller to `addVertex`: an optional `_id`
(`0` models a JS-falsy/absent `_id`, since `if (!vertex._id)` treats `0` as
unset) plus user properties.  Adjacency fields are initialized empty by
`addVertex` (`vertex._out = vertex._out || []`). -/
structure VInput where
  vid : Nat
  props : List (String × String)
deriving DecidableEq

/-- An edge as supplied to `addEdge`: raw endpoint ids (`_out` = source,
`_in` = target), `_label`, and user properties. -/
structure EInput where
  outId : Nat
  inId : Nat
  label : String
  eprops : List (String × String)
deriving DecidableEq

/-- The graph store.  `vertices`/`vertexIndex` and `edges`/`edgeIndex` are
the separate JS `Map`s that the source always updates in lockstep.
`nextEid` is the model's edge-identity counter. -/
structure Graph where
  vertices : List (Nat × VertexRec)
  vertexIndex : List (Nat × VertexRec)
  edges : List (String × EdgeRec)
  edgeIndex : List (String × EdgeRec)
  autoid : Nat
  nextEid : Nat
deriving DecidableEq

/-- `Dagoba.graph()` before any insertion: empty maps, `autoid = 1`. -/
def emptyGraph : Graph := ⟨[], [], [], [], 1, 0⟩

/-- Result of `Dagoba.G.addVertex`: the assigned id, or the falsy failure
signal produced via `Dagoba.error` for a duplicate caller-supplied id. -/
inductive AddVertexResult
  | ok (id : Nat)
  | duplicateIdError
deriving DecidableEq

/-- `Dagoba.G.addVertex`.  An unset (`0`) id takes `autoid++`; a set id
already in `vertexIndex` fails; otherwise the vertex (with fresh empty
adjacency lists) is stored in both `vertices` and `vertexIndex`. -/
def addVertex (g : Graph) (v : VInput) : Graph × AddVertexResult :=
  if v.vid = 0 then
    let id := g.autoid
    let vr : VertexRec := ⟨id, v.props, [], []⟩
    ({ g with autoid := g.autoid + 1,
              vertices := mapSet g.vertices id vr,
              vertexIndex := mapSet g.vertexIndex id vr }, .ok id)
  else if (lookupA g.vertexIndex v.vid).isSome then
    (g, .duplicateIdError)
  else
    let vr : VertexRec := ⟨v.vid, v.props, [], []⟩
    ({ g with vertices := mapSet g.vertices v.vid vr,
              vertexIndex := mapSet g.vertexIndex v.vid vr }, .ok v.vid)

/-- Result of `Dagoba.G.addEdge`: success (JS returns `undefined`), or the
failure signal whose message interpolates `inVertex ? 'out' : 'in'` as the
missing side. -/
inductive AddEdgeResult
  | ok
  | missingEndpointError (side : String)
deriving DecidableEq

/-- The composite edge key `` `${edge._out._id}->${edge._in._id}:${edge._label}` ``. -/
def edgeKey (e : EdgeRec) : String :=
  toString e.outId ++ "->" ++ toString e.inId ++ ":" ++ e.label

/-- Append an edge to the `_out` array of the vertex stored under `k`. -/
def adjPushOut (m : List (Nat × VertexRec)) (k : Nat) (er : EdgeRec) :
    List (Nat × VertexRec) :=
  mapAdjust m k (fun vr => { vr with outE := vr.outE ++ [er] })

/-- Append an edge to the `_in` array of the vertex stored under `k`. -/
def adjPushIn (m : List (Nat × VertexRec)) (k : Nat) (er : EdgeRec) :
    List (Nat × VertexRec) :=
  mapAdjust m k (fun vr => { vr with inE := vr.inE ++ [er] })

/-- `Dagoba.G.addEdge`: resolve both endpoints via `vertexIndex`; if either
is absent, fail (naming `'in'` when `inVertex` is falsy, else `'out'`) with
the store untouched.  On success push the edge onto the source's `_out` and
the target's `_in` (sequentially, so a self-loop gets both pushes on the
same record) and index it under `edgeKey`, overwriting any prior edge with
the same key.  The looked-up vertex's `_id` equals its map key in every
graph built through this API (see `GInv.kvid`). -/
def addEdge (g : Graph) (e : EInput) : Graph × AddEdgeResult :=
  match lookupA g.vertexIndex e.inId, lookupA g.vertexIndex e.outId with
  | none, _ => (g, .missingEndpointError "in")
  | some _, none => (g, .missingEndpointError "out")
  | some _, some _ =>
    let er : EdgeRec := ⟨g.nextEid, e.outId, e.inId, e.label, e.eprops⟩
    let key := edgeKey er
    ({ g with
        vertices := adjPushIn (adjPushOut g.vertices e.outId er) e.inId er,
        vertexIndex := adjPushIn (adjPushOut g.vertexIndex e.outId er) e.inId er,
        edges := mapSet g.edges key er,
        edgeIndex := mapSet g.edgeIndex key er,
        nextEid := g.nextEid + 1 }, .ok)

/-- `Dagoba.G.findVerticesByIds`: the found vertices in input-id order,
silently skipping missing ids (the source's single-id fast path returns the
same list on singletons). -/
def findVerticesByIds (g : Graph) (ids : List Nat) : List VertexRec :=
  ids.filterMap (fun id => lookupA g.vertexIndex id)

/-- `Dagoba.G.findVertices` restricted to the id/no-argument forms used by
the claims: no arguments returns all of `vertices.values()` in insertion
order; otherwise lookup by ids.  (The property-filter-map form is not
exercised by any claim.) -/
def findVertices (g : Graph) (ids : List Nat) : List VertexRec :=
  if ids = [] then g.vertices.map Prod.snd
  else findVerticesByIds g ids

/-- An insertion operation against the store. -/
inductive Op
  | addV (v : VInput)
  | addE (e : EInput)
deriving DecidableEq

/-- Apply one insertion, keeping the (possibly unchanged) store. -/
def applyOp (g : Graph) (op : Op) : Graph :=
  match op with
  | .addV v => (addVertex g v).1
  | .addE e => (addEdge g e).1

/-- The store resulting from a sequence of insertions on a fresh graph. -/
def buildGraph (ops : List Op) : Graph := ops.foldl applyOp emptyGraph

/-- `true` when the operation does not overwrite an existing vertex: an
auto-assigned id (`vid = 0`) must not collide with a present vertex id. -/
def opOkB (g : Graph) : Op → Bool
  | .addV v => v.vid != 0 || (lookupA g.vertexIndex g.autoid).isNone
  | .addE _ => true

/-- `true` when no step of the insertion sequence overwrites a vertex. -/
def buildOkB : Graph → List Op → Bool
  | _, [] => true
  | g, op :: ops => opOkB g op && buildOkB (applyOp g op) ops

/-- Folding vertex insertions over a store (`Dagoba.G.addVertices`). -/
def foldV (g : Graph) (V : List VInput) : Graph :=
  V.foldl (fun g v => (addVertex g v).1) g

/-- Folding edge insertions over a store (`Dagoba.G.addEdges`). -/
def foldE (g : Graph) (E : List EInput) : Graph :=
  E.foldl (fun g e => (addEdge g e).1) g

/-! ### Serialization (`Dagoba.jsonify` / `Dagoba.fromString`)

The JSON-text layer is the out-of-scope serializer collaborator; the
snapshot is modelled as the structured data the text denotes
(`{"V": …, "E": …}`), with `JSON.parse ∘ JSON.stringify` the identity on
it. -/

/-- `Dagoba.cleanVertex` as a whole-object transform: serialize a vertex
without its `_in`/`_out` adjacency fields. -/
def cleanVertexS (vr : VertexRec) : VInput := ⟨vr.vid, vr.props⟩

/-- `Dagoba.cleanEdge` as a whole-object transform: serialize an edge with
its `_in`/`_out` vertex references replaced by their `_id`s. -/
def cleanEdgeS (er : EdgeRec) : EInput := ⟨er.outId, er.inId, er.label, er.eprops⟩

/-- `Dagoba.jsonify`: the snapshot lists `vertices.values()` (cleaned) and
`edges.values()` (cleaned), in map insertion order. -/
def jsonifySnapshot (g : Graph) : List VInput × List EInput :=
  (g.vertices.map (fun p => cleanVertexS p.2), g.edges.map (fun p => cleanEdgeS p.2))

/-- `Dagoba.fromString` ∘ `JSON.parse`: `Dagoba.graph(V, E)` inserts all
vertices (in order) into a fresh store, then all edges. -/
def fromSnapshot (s : List VInput × List EInput) : Graph :=
  foldE (foldV emptyGraph s.1) s.2

/-! ### Transformer registry (`Dagoba.addTransformer` / `Dagoba.transform`) -/

/-- A registered transformer: its integer priority and an opaque tag
standing for the rewrite function. -/
structure Transformer where
  priority : Int
  funId : Nat
deriving DecidableEq

/-- `Array.prototype.splice(i, 0, t)`: insert `t` at position `i`. -/
def spliceIn (l : List Transformer) (i : Nat) (t : Transformer) :
    List Transformer :=
  l.take i ++ t :: l.drop i

/-- The loop body of `Dagoba.addTransformer`, fuel-bounded: while
`i < T.length`, break (returning the registry unchanged) when
`priority > T[i].priority`, otherwise splice the new transformer in at `i`
and continue with `i + 1`.  `none` means the fuel ran out, i.e. the JS loop
ran at least that many iterations (it in fact never terminates on those
inputs, since each splice grows the array by one). -/
def addTransformerLoop (t : Transformer) : Nat → Nat → List Transformer →
    Option (List Transformer)
  | 0, _, _ => none
  | fuel + 1, i, T =>
    match T[i]? with
    | none => some T
    | some u =>
      if u.priority < t.priority then some T
      else addTransformerLoop t fuel (i + 1) (spliceIn T i t)

/-- `Dagoba.addTransformer` (the well-typed-function branch): run the
splice loop from `i = 0` on the current registry and return the resulting
registry, or `none` if the loop exceeds `fuel` iterations. -/
def addTransformerModel (t : Transformer) (T : List Transformer) (fuel : Nat) :
    Option (List Transformer) :=
  addTransformerLoop t fuel 0 T

/-- `Dagoba.transform`: fold every registered transformer over the program
exactly once, in registry order (`applyT` interprets a transformer tag as a
program rewrite). -/
def transform {π : Type} (applyT : Nat → π → π) (T : List Transformer)
    (program : π) : π :=
  T.foldl (fun acc t => applyT t.funId acc) program

/-! ### Gremlins and pipetypes -/

/-- The gremlin's side-channel `state`: the `as` checkpoint map from label
to the checkpointed vertex object. -/
structure GremState where
  asMap : List (String × VertexRec)
deriving DecidableEq

/-- A traversal token: current vertex object, optional `result` projection
override, and checkpoint state. -/
structure Gremlin where
  vertex : VertexRec
  result : Option String
  state : GremState
deriving DecidableEq

/-- `Dagoba.makeGremlin`: `{vertex, state}` (no `result` field). -/
def makeGremlin (v : VertexRec) (st : GremState) : Gremlin := ⟨v, none, st⟩

/-- `Dagoba.gotoVertex`: a fresh gremlin at `v` carrying the old state. -/
def gotoVertex (gr : Gremlin) (v : VertexRec) : Gremlin :=
  makeGremlin v gr.state

/-- `Dagoba.filterEdges` restricted to the argument shapes used by the
claims: no filter accepts every edge, a string filter matches `_label`.
(The label-array and property-map forms are not exercised by any claim.) -/
def filterEdges (efilter : Option String) (e : EdgeRec) : Bool :=
  match efilter with
  | none => true
  | some s => e.label = s

/-- What a pipetype invocation hands back to the engine: `'pull'`,
`'done'`, or a value (`val (some g)` a gremlin, `val none` the falsy
no-value return used e.g. by `property` on a missing property). -/
inductive PipeResult
  | pull
  | doneR
  | val (g : Option Gremlin)
deriving DecidableEq

/-- Per-position pipetype state (the fields of the per-step state object
used by the built-in stages the engine model runs). -/
structure PState where
  vertices : Option (List VertexRec)
  edges : Option (List EdgeRec)
  grem : Option Gremlin
deriving DecidableEq

/-- The state object before first use (`Object.create(null)`). -/
def emptyPState : PState := ⟨none, none, none⟩

/-- A program step, restricted to the pipetypes the claims execute. -/
inductive Step
  | vertexS (ids : List Nat)
  | outS (efilter : Option String)
  | propertyS (name : String)
  | asS (label : String)
  | backS (label : String)
deriving DecidableEq

/-- One invocation of a built-in pipetype's behavior function
`(graph, args, gremlin, state)`, returning its signal and updated state.
`vertex`: cache `findVertices` on first call, then pop (from the end) one
vertex per cycle, `'done'` when exhausted.  `out` (`simpleTraversal`):
`'pull'` with no input and no pending edges; refill the filtered `_out`
adjacency from a new input gremlin; pop an edge and move the saved gremlin
to its `_in` endpoint.  `property`: set `result`, returning the falsy
no-value when the property is absent.  `as`: record the current vertex
under the label in the gremlin's checkpoint map.  `back`: `gotoVertex` to
the checkpointed vertex, `'pull'` when absent. -/
def pipetypeStep (g : Graph) (step : Step) (input : Option Gremlin)
    (st : PState) : PipeResult × PState :=
  match step with
  | .vertexS ids =>
    let st1 := if st.vertices = none
      then { st with vertices := some (findVertices g ids) } else st
    match st1.vertices with
    | none => (.doneR, st1)
    | some vs =>
      match vs.getLast? with
      | none => (.doneR, st1)
      | some v =>
        (.val (some (makeGremlin v
            (match input with | some gr => gr.state | none => ⟨[]⟩))),
         { st1 with vertices := some vs.dropLast })
  | .outS efilter =>
    if input = none ∧ (st.edges = none ∨ st.edges = some []) then (.pull, st)
    else
      let st1 :=
        if st.edges = none ∨ st.edges = some [] then
          match input with
          | some gr =>
            { st with grem := some gr,
                      edges := some (gr.vertex.outE.filter
                                      (fun e => filterEdges efilter e)) }
          | none => st
        else st
      match st1.edges with
      | none => (.pull, st1)
      | some es =>
        match es.getLast? with
        | none => (.pull, st1)
        | some e =>
          let st2 := { st1 with edges := some es.dropLast }
          -- `state.edges.pop()['_in']` is a vertex object; resolved by id
          -- (coincides with the object while no vertex is overwritten, and
          -- queries never mutate the store).  The fallbacks are unreachable:
          -- a nonempty edge cache implies `state.gremlin` was saved, and
          -- every inserted edge's endpoints are indexed.
          match lookupA g.vertexIndex e.inId, st2.grem with
          | some v, some sg => (.val (some (gotoVertex sg v)), st2)
          | _, _ => (.pull, st2)
  | .propertyS name =>
    match input with
    | none => (.pull, st)
    | some gr =>
      match lookupA gr.vertex.props name with
      | none => (.val none, st)
      | some v => (.val (some { gr with result := some v }), st)
  | .asS label =>
    match input with
    | none => (.pull, st)
    | some gr =>
      (.val (some { gr with state := ⟨mapSet gr.state.asMap label gr.vertex⟩ }),
       st)
  | .backS label =>
    match input with
    | none => (.pull, st)
    | some gr =>
      match lookupA gr.state.asMap label with
      | none => (.pull, st)
      | some v => (.val (some (gotoVertex gr v)), st)

/-! ### The execution engine (`Dagoba.Q.run`) -/

/-- A value emitted past the last stage:
`maybeGremlin.result != null ? maybeGremlin.result : maybeGremlin.vertex`. -/
inductive QueryResult
  | value (s : String)
  | vertexR (v : VertexRec)
deriving DecidableEq

/-- The emission rule above. -/
def resultOf (gr : Gremlin) : QueryResult :=
  match gr.result with
  | some v => .value v
  | none => .vertexR gr.vertex

/-- The engine's loop variables: per-position state array, program counter
`pc`, exhaustion boundary `doneIdx` (JS `done`, starts at `-1`), and the
threaded `maybeGremlin` (`none` = falsy). -/
structure EngState where
  pstates : List PState
  pc : Nat
  doneIdx : Int
  carry : Option Gremlin
deriving DecidableEq

/-- Outcome of one scheduler cycle: halt (loop guard failed), or continue,
possibly yielding a result. -/
inductive CycleOut
  | halt
  | cont (emit : Option QueryResult) (s : EngState)

/-- The tail of each loop iteration: `pc++`, and if `pc > max` emit the
carried gremlin (if any), clear it, and step `pc` back to `max`. -/
def finishCycle (prog : List Step) (ps : List PState) (pc : Nat)
    (doneIdx : Int) (carry : Option Gremlin) : CycleOut :=
  if pc + 1 ≥ prog.length then
    .cont (carry.map resultOf) ⟨ps, pc, doneIdx, none⟩
  else
    .cont none ⟨ps, pc + 1, doneIdx, carry⟩

/-- One iteration of the `while (done < max)` loop of `Dagoba.Q.run`:
invoke the pipetype at `pc`; on `'pull'` step upstream if an unsettled
stage exists there, else mark this position done; on `'done'` mark it done;
otherwise carry the returned value downstream. -/
def engCycle (g : Graph) (prog : List Step) (s : EngState) : CycleOut :=
  if s.doneIdx ≥ (prog.length : Int) - 1 then .halt
  else
    match prog[s.pc]?, s.pstates[s.pc]? with
    | some step, some pst =>
      let r := pipetypeStep g step s.carry pst
      let ps' := s.pstates.set s.pc r.2
      match r.1 with
      | .pull =>
        if (s.pc : Int) - 1 > s.doneIdx then
          .cont none ⟨ps', s.pc - 1, s.doneIdx, none⟩
        else finishCycle prog ps' s.pc (s.pc : Int) none
      | .doneR => finishCycle prog ps' s.pc (s.pc : Int) none
      | .val mg => finishCycle prog ps' s.pc s.doneIdx mg
    | _, _ => .halt

/-- Drive the scheduler for at most `fuel` cycles, collecting the yielded
results in order. -/
def engGo (g : Graph) (prog : List Step) : Nat → EngState → List QueryResult
  | 0, _ => []
  | fuel + 1, s =>
    match engCycle g prog s with
    | .halt => []
    | .cont none s' => engGo g prog fuel s'
    | .cont (some r) s' => r :: engGo g prog fuel s'

/-- Execute a program: fresh per-position states, `pc = max`,
`done = -1`. -/
def engineRun (g : Graph) (prog : List Step) (fuel : Nat) : List QueryResult :=
  engGo g prog fuel
    ⟨List.replicate prog.length emptyPState, prog.length - 1, -1, none⟩

/-! ### The `merge` pipetype (modelled separately: it can fault) -/

/-- The `merge` stage's per-position state: its cached vertex list
(`none` = field never written). -/
structure MergeState where
  vertices : Option (List VertexRec)
deriving DecidableEq

/-- The refill expression of `merge`: read `gremlin.state.as` and collect,
in argument order, the checkpointed vertex of each listed label.  Faults
(JS `TypeError`, modelled `none`) when `gremlin` is falsy, because the code
dereferences `gremlin.state` unconditionally. -/
def mergeRefill (args : List String) : Option Gremlin →
    Option (List VertexRec)
  | none => none
  | some gr => some (args.filterMap (fun l => lookupA gr.state.asMap l))

/-- One invocation of the `merge` pipetype.  `none` models a thrown
`TypeError`: the code reads `gremlin.state` both when refilling the cache
and when building the popped gremlin (`makeGremlin(vertex, gremlin.state)`),
without checking that a gremlin was supplied. -/
def mergeStep (args : List String) (grem : Option Gremlin) (st : MergeState) :
    Option (PipeResult × MergeState) :=
  match st.vertices, grem with
  | none, none => some (.pull, st)
  | _, _ =>
    let vsO : Option (List VertexRec) :=
      match st.vertices with
      | none => mergeRefill args grem
      | some [] => mergeRefill args grem
      | some vs => some vs
    match vsO with
    | none => none
    | some [] => some (.pull, ⟨some []⟩)
    | some vs =>
      match vs.getLast?, grem with
      | some v, some gr =>
        some (.val (some (makeGremlin v gr.state)), ⟨some vs.dropLast⟩)
      | some _, none => none
      | none, _ => some (.pull, ⟨some vs⟩)

/-! ### The `unique` pipetype -/

/-- The `unique` stage's per-position state: the set of vertex ids already
passed at this position (JS `Set`, modelled as a list with membership). -/
structure UniqueState where
  visited : List Nat
deriving DecidableEq

/-- One invocation of the `unique` pipetype: no input → `'pull'`; an
already-seen vertex id → `'pull'` (dropping the gremlin); otherwise record
the id and pass the gremlin through. -/
def uniqueStep (input : Option Gremlin) (st : UniqueState) :
    PipeResult × UniqueState :=
  match input with
  | none => (.pull, st)
  | some gr =>
    if gr.vertex.vid ∈ st.visited then (.pull, st)
    else (.val (some gr), ⟨gr.vertex.vid :: st.visited⟩)

/-- Fold a sequence of invocations through the `unique` stage, exactly as
the engine threads its persisted state at one position, collecting the
gremlins it passes through. -/
def uniqueRun : List (Option Gremlin) → UniqueState →
    List Gremlin × UniqueState
  | [], st => ([], st)
  | i :: rest, st =>
    let r := uniqueStep i st
    let tl := uniqueRun rest r.2
    (match r.1 with
     | .val (some gr) => gr :: tl.1
     | _ => tl.1, tl.2)

/-! ### Concrete stores used by the scenario claims -/

/-- The scenario store: vertices `{id:1,name:"a"}`, `{id:2,name:"b"}` and
edge `{from:1,to:2,label:"knows"}`. -/
def scenarioGraph : Graph :=
  (addEdge
    ((addVertex (addVertex emptyGraph ⟨1, [("name", "a")]⟩).1
        ⟨2, [("name", "b")]⟩).1)
    ⟨1, 2, "knows", []⟩).1

/-! ### Store invariants -/

/-- How many edges of the list are the given edge (by identity tag). -/
def eidCount (l : List EdgeRec) (x : Nat) : Nat :=
  (l.filter (fun e => e.eid = x)).length

/-- Edge endpoint integrity for one edge: both endpoints are indexed
vertices, and the edge occurs exactly once in the `_out` adjacency of its
source, exactly once in the `_in` adjacency of its target, and in no other
adjacency list. -/
def edgeWellPlaced (g : Graph) (e : EdgeRec) : Prop :=
  (lookupA g.vertexIndex e.outId).isSome = true ∧
  (lookupA g.vertexIndex e.inId).isSome = true ∧
  (∀ q ∈ g.vertexIndex, eidCount q.2.outE e.eid = if q.1 = e.outId then 1 else 0) ∧
  (∀ q ∈ g.vertexIndex, eidCount q.2.inE e.eid = if q.1 = e.inId then 1 else 0)

/-- Edge endpoint integrity of the whole store (claim C4's property). -/
def edgeIntegrity (g : Graph) : Prop :=
  ∀ p ∈ g.edgeIndex, edgeWellPlaced g p.2

instance (g : Graph) (e : EdgeRec) : Decidable (edgeWellPlaced g e) := by
  unfold edgeWellPlaced; infer_instance

instance (g : Graph) : Decidable (edgeIntegrity g) := by
  unfold edgeIntegrity; infer_instance

/-- Every edge identity tag in the store is below the counter. -/
def eidFresh (g : Graph) : Prop :=
  (∀ p ∈ g.edgeIndex, p.2.eid < g.nextEid) ∧
  (∀ q ∈ g.vertexIndex,
    (∀ e ∈ q.2.outE, e.eid < g.nextEid) ∧ (∀ e ∈ q.2.inE, e.eid < g.nextEid))

instance (g : Graph) : Decidable (eidFresh g) := by
  unfold eidFresh; infer_instance

/-- Structural well-formedness of every store reachable through the public
insertion API (with or without vertex overwrites). -/
structure GInv (g : Graph) : Prop where
  vsync : g.vertices = g.vertexIndex
  esync : g.edges = g.edgeIndex
  vkeys : (g.vertexIndex.map Prod.fst).Nodup
  ekeys : (g.edgeIndex.map Prod.fst).Nodup
  kvid : ∀ q ∈ g.vertexIndex, q.1 = q.2.vid ∧ q.2.vid ≠ 0
  ekey : ∀ p ∈ g.edgeIndex, p.1 = edgeKey p.2
  eendp : ∀ p ∈ g.edgeIndex,
    (lookupA g.vertexIndex p.2.outId).isSome = true ∧
    (lookupA g.vertexIndex p.2.inId).isSome = true
  autoidPos : 1 ≤ g.autoid

/-- Two stores hold the same set of vertex ids with the same properties
(adjacency disregarded, as it is rebuilt by edge insertion). -/
def sameVerticesUpTo (g h : Graph) : Prop :=
  ∀ id, (lookupA g.vertexIndex id).map cleanVertexS
      = (lookupA h.vertexIndex id).map cleanVertexS

/-- Two stores hold the same set of composite edge keys, with matching
endpoint ids, label and properties under each key. -/
def sameEdgesUpTo (g h : Graph) : Prop :=
  ∀ k, (lookupA g.edgeIndex k).map cleanEdgeS
     = (lookupA h.edgeIndex k).map cleanEdgeS

/-- The composite key an `EInput` will be indexed under once inserted. -/
def eKeyInput (e : EInput) : String :=
  toString e.outId ++ "->" ++ toString e.inId ++ ":" ++ e.label

/-- The combined effect of `addEdge`'s two adjacency pushes on one stored
vertex entry. -/
def pushFn (ko ki : Nat) (er : EdgeRec) (p : Nat × VertexRec) :
    Nat × VertexRec :=
  (p.1, { p.2 with
            outE := if p.1 = ko then p.2.outE ++ [er] else p.2.outE,
            inE := if p.1 = ki then p.2.inE ++ [er] else p.2.inE })

/-! ### Concrete inputs used by witnesses and counterexamples -/

/-- Insertions breaking edge integrity: vertex 2 and the edge survive, but
the fourth insertion auto-assigns id `1` and silently replaces vertex 1,
whose fresh `_out` list no longer holds the indexed edge. -/
def integrityCeOps : List Op :=
  [.addV ⟨1, []⟩, .addV ⟨2, []⟩, .addE ⟨1, 2, "knows", []⟩, .addV ⟨0, []⟩]

/-- The insertions that build `scenarioGraph`. -/
def scenarioOps : List Op :=
  [.addV ⟨1, [("name", "a")]⟩, .addV ⟨2, [("name", "b")]⟩,
   .addE ⟨1, 2, "knows", []⟩]

/-- A concrete gremlin sitting at a bare vertex with id 1. -/
def gremlinAt1 : Gremlin := makeGremlin ⟨1, [], [], []⟩ ⟨[]⟩

/-- A concrete gremlin holding checkpoints `"x"` (at vertex 1) and `"y"`
(at vertex 2). -/
def mergeGremlin : Gremlin :=
  ⟨⟨3, [], [], []⟩, none,
   ⟨[("x", ⟨1, [], [], []⟩), ("y", ⟨2, [], [], []⟩)]⟩⟩

/-! ## Lemmas about the association-list maps -/

theorem lookupA_append_left {κ α : Type} [DecidableEq κ] {m : List (κ × α)}
    {k : κ} {w : α} (l : List (κ × α)) (h : lookupA m k = some w) :
    lookupA (m ++ l) k = some w := by
  induction m with
  | nil => simp [lookupA] at h
  | cons p ps ih =>
    by_cases hk : p.1 = k
    · simp only [lookupA, List.cons_append, if_pos hk] at h ⊢
      exact h
    · simp only [lookupA, List.cons_append, if_neg hk] at h ⊢
      exact ih h

theorem lookupA_append_right {κ α : Type} [DecidableEq κ] {m : List (κ × α)}
    {k : κ} (l : List (κ × α)) (h : lookupA m k = none) :
    lookupA (m ++ l) k = lookupA l k := by
  induction m with
  | nil => simp
  | cons p ps ih =>
    by_cases hk : p.1 = k
    · simp [lookupA, if_pos hk] at h
    · simp only [lookupA, List.cons_append, if_neg hk] at h ⊢
      exact ih h

theorem lookupA_eq_none_iff {κ α : Type} [DecidableEq κ] {m : List (κ × α)}
    {k : κ} : lookupA m k = none ↔ k ∉ m.map Prod.fst := by
  induction m with
  | nil => simp [lookupA]
  | cons p ps ih =>
    by_cases hk : p.1 = k
    · simp [lookupA, if_pos hk, hk]
    · simp only [lookupA, if_neg hk, List.map_cons, List.mem_cons, ih]
      constructor
      · rintro h (h1 | h2)
        · exact hk h1.symm
        · exact h h2
      · intro h hm
        exact h (Or.inr hm)

theorem lookupA_isSome_iff {κ α : Type} [DecidableEq κ] {m : List (κ × α)}
    {k : κ} : (lookupA m k).isSome = true ↔ k ∈ m.map Prod.fst := by
  rw [← Decidable.not_iff_not, ← lookupA_eq_none_iff,
    Option.not_isSome_iff_eq_none]

theorem mem_of_lookupA {κ α : Type} [DecidableEq κ] {m : List (κ × α)}
    {k : κ} {w : α} (h : lookupA m k = some w) : (k, w) ∈ m := by
  induction m with
  | nil => simp [lookupA] at h
  | cons p ps ih =>
    by_cases hk : p.1 = k
    · simp only [lookupA, if_pos hk] at h
      have hp : p = (k, w) := by
        obtain ⟨a, b⟩ := p
        simp only at hk
        simp only [Option.some_inj] at h
        simp [hk, h]
      rw [← hp]
      exact List.mem_cons_self p ps
    · simp only [lookupA, if_neg hk] at h
      exact List.mem_cons_of_mem _ (ih h)

theorem lookupA_map_keep {κ α β : Type} [DecidableEq κ]
    (F : κ × α → κ × β) (hF : ∀ p, (F p).1 = p.1) (m : List (κ × α)) (k : κ) :
    lookupA (m.map F) k = (lookupA m k).map (fun w => (F (k, w)).2) := by
  induction m with
  | nil => simp [lookupA]
  | cons p ps ih =>
    by_cases hk : p.1 = k
    · have hp : p = (k, p.2) := by
        obtain ⟨a, b⟩ := p
        simp only at hk
        simp [hk]
      simp only [List.map_cons, lookupA, hF p, if_pos hk]
      rw [hp]
      simp
    · simp only [List.map_cons, lookupA, hF p, if_neg hk]
      exact ih

theorem keys_map_keep {κ α β : Type} [DecidableEq κ]
    (F : κ × α → κ × β) (hF : ∀ p, (F p).1 = p.1) (m : List (κ × α)) :
    (m.map F).map Prod.fst = m.map Prod.fst := by
  rw [List.map_map]
  exact List.map_congr_left (fun p _ => hF p)

theorem replaceF_keeps {κ α : Type} [DecidableEq κ] (k : κ) (v : α) :
    ∀ p : κ × α, ((if p.1 = k then (k, v) else p) : κ × α).1 = p.1 := by
  intro p
  by_cases hk : p.1 = k <;> simp [hk]

theorem lookupA_not_isSome_eq_none {κ α : Type} [DecidableEq κ]
    {m : List (κ × α)} {k : κ} (h : ¬(lookupA m k).isSome = true) :
    lookupA m k = none := by
  cases hmk : lookupA m k with
  | none => rfl
  | some w => rw [hmk] at h; simp at h

theorem lookupA_mapSet_self {κ α : Type} [DecidableEq κ] (m : List (κ × α))
    (k : κ) (v : α) : lookupA (mapSet m k v) k = some v := by
  unfold mapSet
  split
  · rename_i hs
    rw [lookupA_map_keep _ (replaceF_keeps k v) m k]
    obtain ⟨w, hw⟩ := Option.isSome_iff_exists.mp hs
    rw [hw]
    simp
  · rename_i hs
    rw [lookupA_append_right _ (lookupA_not_isSome_eq_none hs)]
    simp [lookupA]

theorem lookupA_mapSet_ne {κ α : Type} [DecidableEq κ] (m : List (κ × α))
    {k k' : κ} (v : α) (h : k' ≠ k) :
    lookupA (mapSet m k v) k' = lookupA m k' := by
  unfold mapSet
  split
  · rw [lookupA_map_keep _ (replaceF_keeps k v) m k']
    cases hmk : lookupA m k' with
    | none => simp
    | some w => simp [if_neg h]
  · cases hmk : lookupA m k' with
    | some w => exact lookupA_append_left _ hmk
    | none =>
      rw [lookupA_append_right _ hmk]
      simp [lookupA, hmk, Ne.symm h]

theorem isSome_lookupA_mapSet {κ α : Type} [DecidableEq κ]
    {m : List (κ × α)} {k' : κ} (k : κ) (v : α)
    (h : (lookupA m k').isSome = true) :
    (lookupA (mapSet m k v) k').isSome = true := by
  by_cases hk : k' = k
  · subst hk; simp [lookupA_mapSet_self]
  · rw [lookupA_mapSet_ne _ _ hk]; exact h

theorem keys_mapSet_nodup {κ α : Type} [DecidableEq κ] {m : List (κ × α)}
    (k : κ) (v : α) (h : (m.map Prod.fst).Nodup) :
    ((mapSet m k v).map Prod.fst).Nodup := by
  unfold mapSet
  split
  · rw [keys_map_keep _ (replaceF_keeps k v)]
    exact h
  · rename_i hs
    have hk : k ∉ m.map Prod.fst :=
      lookupA_eq_none_iff.mp (lookupA_not_isSome_eq_none hs)
    simp only [List.map_append, List.map_cons, List.map_nil]
    rw [List.nodup_append]
    refine ⟨h, List.nodup_singleton k, ?_⟩
    intro a ha hb
    simp only [List.mem_singleton] at hb
    subst hb
    exact hk ha

theorem mem_mapSet {κ α : Type} [DecidableEq κ] {m : List (κ × α)}
    {k : κ} {v : α} {q : κ × α} (h : q ∈ mapSet m k v) :
    q = (k, v) ∨ (q ∈ m ∧ q.1 ≠ k) := by
  unfold mapSet at h
  split at h
  · obtain ⟨p, hp, hq⟩ := List.mem_map.mp h
    by_cases hk : p.1 = k
    · left
      rw [← hq, if_pos hk]
    · right
      rw [← hq, if_neg hk]
      exact ⟨hp, hk⟩
  · rename_i hs
    have hk : k ∉ m.map Prod.fst :=
      lookupA_eq_none_iff.mp (lookupA_not_isSome_eq_none hs)
    rcases List.mem_append.mp h with hm | hm
    · right
      refine ⟨hm, fun hq => ?_⟩
      exact hk (List.mem_map.mpr ⟨q, hm, hq⟩)
    · left
      simpa using hm

/-! ## Lemmas about the adjacency pushes and edge counting -/

theorem pushFn_keeps (ko ki : Nat) (er : EdgeRec) :
    ∀ p, (pushFn ko ki er p).1 = p.1 := fun _ => rfl

theorem adjPush2_eq_map (m : List (Nat × VertexRec)) (ko ki : Nat)
    (er : EdgeRec) :
    adjPushIn (adjPushOut m ko er) ki er = m.map (pushFn ko ki er) := by
  unfold adjPushIn adjPushOut mapAdjust
  rw [List.map_map]
  refine List.map_congr_left (fun p _ => ?_)
  obtain ⟨a, vr⟩ := p
  by_cases hko : a = ko <;> by_cases hki : a = ki
  · simp [pushFn, Function.comp, hko, hki, hko.symm.trans hki]
  · simp [pushFn, Function.comp, hko, hki,
      show ¬ko = ki from fun hh => hki (hko.trans hh)]
  · simp [pushFn, Function.comp, hko, hki,
      show ¬ki = ko from fun hh => hko (hki.trans hh)]
  · simp [pushFn, Function.comp, hko, hki]

theorem isSome_lookupA_map_keep {κ α β : Type} [DecidableEq κ]
    (F : κ × α → κ × β) (hF : ∀ p, (F p).1 = p.1) (m : List (κ × α)) (k : κ) :
    (lookupA (m.map F) k).isSome = (lookupA m k).isSome := by
  rw [lookupA_map_keep F hF]
  cases lookupA m k <;> simp

theorem eidCount_append (l1 l2 : List EdgeRec) (x : Nat) :
    eidCount (l1 ++ l2) x = eidCount l1 x + eidCount l2 x := by
  simp [eidCount, List.filter_append]

theorem eidCount_single (e : EdgeRec) (x : Nat) :
    eidCount [e] x = if e.eid = x then 1 else 0 := by
  by_cases h : e.eid = x <;> simp [eidCount, List.filter, h]

theorem eidCount_eq_zero (l : List EdgeRec) (x : Nat)
    (h : ∀ e ∈ l, e.eid ≠ x) : eidCount l x = 0 := by
  simp only [eidCount, List.length_eq_zero, List.filter_eq_nil_iff]
  intro e he
  simpa using h e he

/-! ## Preservation of the structural invariant -/

theorem GInv_empty : GInv emptyGraph := by
  constructor <;> simp [emptyGraph]

theorem GInv_mapSetVertex (g : Graph) (k : Nat) (ps : List (String × String))
    (a' : Nat) (hk : k ≠ 0) (ha : 1 ≤ a') (h : GInv g) :
    GInv { g with vertices := mapSet g.vertices k ⟨k, ps, [], []⟩,
                  vertexIndex := mapSet g.vertexIndex k ⟨k, ps, [], []⟩,
                  autoid := a' } := by
  constructor
  · simp [h.vsync]
  · exact h.esync
  · exact keys_mapSet_nodup _ _ h.vkeys
  · exact h.ekeys
  · intro q hq
    rcases mem_mapSet hq with rfl | ⟨hq', _⟩
    · exact ⟨rfl, hk⟩
    · exact h.kvid q hq'
  · exact h.ekey
  · intro p hp
    obtain ⟨h1, h2⟩ := h.eendp p hp
    exact ⟨isSome_lookupA_mapSet _ _ h1, isSome_lookupA_mapSet _ _ h2⟩
  · exact ha

theorem GInv_addVertex (g : Graph) (v : VInput) (h : GInv g) :
    GInv (addVertex g v).1 := by
  unfold addVertex
  by_cases h0 : v.vid = 0
  · simp only [if_pos h0]
    exact GInv_mapSetVertex g g.autoid v.props (g.autoid + 1)
      (Nat.one_le_iff_ne_zero.mp h.autoidPos) (Nat.le_succ_of_le h.autoidPos) h
  · simp only [if_neg h0]
    by_cases hd : (lookupA g.vertexIndex v.vid).isSome = true
    · simp only [if_pos hd]
      exact h
    · simp only [if_neg hd]
      exact GInv_mapSetVertex g v.vid v.props g.autoid h0 h.autoidPos h

theorem GInv_pushEdge (g : Graph) (ko ki : Nat) (er : EdgeRec)
    (heo : er.outId = ko) (hei : er.inId = ki)
    (hin : (lookupA g.vertexIndex ki).isSome = true)
    (hout : (lookupA g.vertexIndex ko).isSome = true) (h : GInv g) :
    GInv { g with
            vertices := adjPushIn (adjPushOut g.vertices ko er) ki er,
            vertexIndex := adjPushIn (adjPushOut g.vertexIndex ko er) ki er,
            edges := mapSet g.edges (edgeKey er) er,
            edgeIndex := mapSet g.edgeIndex (edgeKey er) er,
            nextEid := g.nextEid + 1 } := by
  constructor
  · show adjPushIn (adjPushOut g.vertices ko er) ki er
        = adjPushIn (adjPushOut g.vertexIndex ko er) ki er
    rw [h.vsync]
  · show mapSet g.edges (edgeKey er) er = mapSet g.edgeIndex (edgeKey er) er
    rw [h.esync]
  · show ((adjPushIn (adjPushOut g.vertexIndex ko er) ki er).map
        Prod.fst).Nodup
    rw [adjPush2_eq_map, keys_map_keep _ (pushFn_keeps _ _ _)]
    exact h.vkeys
  · exact keys_mapSet_nodup _ _ h.ekeys
  · intro q hq
    have hq' : q ∈ adjPushIn (adjPushOut g.vertexIndex ko er) ki er := hq
    rw [adjPush2_eq_map] at hq'
    obtain ⟨p, hp, hpq⟩ := List.mem_map.mp hq'
    obtain ⟨h1, h2⟩ := h.kvid p hp
    rw [← hpq]
    exact ⟨h1, h2⟩
  · intro p hp
    have hp' : p ∈ mapSet g.edgeIndex (edgeKey er) er := hp
    rcases mem_mapSet hp' with rfl | ⟨hp'', _⟩
    · rfl
    · exact h.ekey p hp''
  · intro p hp
    have hp' : p ∈ mapSet g.edgeIndex (edgeKey er) er := hp
    have hkeep : ∀ k, (lookupA
        ((adjPushIn (adjPushOut g.vertexIndex ko er) ki er)) k).isSome
        = (lookupA g.vertexIndex k).isSome := by
      intro k
      rw [adjPush2_eq_map]
      exact isSome_lookupA_map_keep _ (pushFn_keeps _ _ _) g.vertexIndex k
    show (lookupA (adjPushIn (adjPushOut g.vertexIndex ko er) ki er)
            p.2.outId).isSome = true
       ∧ (lookupA (adjPushIn (adjPushOut g.vertexIndex ko er) ki er)
            p.2.inId).isSome = true
    rw [hkeep, hkeep]
    rcases mem_mapSet hp' with rfl | ⟨hp'', _⟩
    · constructor
      · rw [heo]; exact hout
      · rw [hei]; exact hin
    · exact h.eendp p hp''
  · exact h.autoidPos

theorem GInv_addEdge (g : Graph) (e : EInput) (h : GInv g) :
    GInv (addEdge g e).1 := by
  unfold addEdge
  cases hin : lookupA g.vertexIndex e.inId with
  | none => exact h
  | some vin =>
    cases hout : lookupA g.vertexIndex e.outId with
    | none => exact h
    | some vout =>
      exact GInv_pushEdge g e.outId e.inId
        ⟨g.nextEid, e.outId, e.inId, e.label, e.eprops⟩ rfl rfl
        (by rw [hin]; rfl) (by rw [hout]; rfl) h

theorem GInv_applyOp (g : Graph) (op : Op) (h : GInv g) :
    GInv (applyOp g op) := by
  cases op with
  | addV v => exact GInv_addVertex g v h
  | addE e => exact GInv_addEdge g e h

theorem GInv_foldl (ops : List Op) : ∀ g, GInv g → GInv (ops.foldl applyOp g) := by
  induction ops with
  | nil => exact fun g h => h
  | cons op rest ih =>
    intro g h
    exact ih (applyOp g op) (GInv_applyOp g op h)

theorem GInv_buildGraph (ops : List Op) : GInv (buildGraph ops) :=
  GInv_foldl ops emptyGraph GInv_empty

/-! ## Preservation of edge integrity (absent vertex overwrites) -/

theorem mapSet_eq_append {κ α : Type} [DecidableEq κ] {m : List (κ × α)}
    {k : κ} (v : α) (h : lookupA m k = none) : mapSet m k v = m ++ [(k, v)] := by
  simp [mapSet, h]

theorem isSome_lookupA_append {κ α : Type} [DecidableEq κ] {m : List (κ × α)}
    {k : κ} (l : List (κ × α)) (h : (lookupA m k).isSome = true) :
    (lookupA (m ++ l) k).isSome = true := by
  obtain ⟨w, hw⟩ := Option.isSome_iff_exists.mp h
  rw [lookupA_append_left l hw]
  rfl

theorem integ_appendVertex (g : Graph) (k : Nat) (ps : List (String × String))
    (a' : Nat) (hnone : lookupA g.vertexIndex k = none)
    (hF : eidFresh g) (hE : edgeIntegrity g) :
    eidFresh { g with vertices := mapSet g.vertices k ⟨k, ps, [], []⟩,
                      vertexIndex := mapSet g.vertexIndex k ⟨k, ps, [], []⟩,
                      autoid := a' }
    ∧ edgeIntegrity ({ g with
                       vertices := mapSet g.vertices k ⟨k, ps, [], []⟩,
                       vertexIndex := mapSet g.vertexIndex k ⟨k, ps, [], []⟩,
                       autoid := a' }) := by
  rw [mapSet_eq_append _ hnone]
  have hknotin : k ∉ g.vertexIndex.map Prod.fst := lookupA_eq_none_iff.mp hnone
  constructor
  · constructor
    · intro p hp
      exact hF.1 p hp
    · intro q hq
      rcases List.mem_append.mp hq with hq' | hq'
      · exact hF.2 q hq'
      · simp only [List.mem_singleton] at hq'
        subst hq'
        exact ⟨by intro e he; simp at he, by intro e he; simp at he⟩
  · intro p hp
    obtain ⟨ho, hi, hco, hci⟩ := hE p hp
    have hkout : k ≠ p.2.outId := by
      intro hh
      exact hknotin (hh ▸ lookupA_isSome_iff.mp ho)
    have hkin : k ≠ p.2.inId := by
      intro hh
      exact hknotin (hh ▸ lookupA_isSome_iff.mp hi)
    refine ⟨isSome_lookupA_append _ ho, isSome_lookupA_append _ hi, ?_, ?_⟩
    · intro q hq
      rcases List.mem_append.mp hq with hq' | hq'
      · exact hco q hq'
      · simp only [List.mem_singleton] at hq'
        subst hq'
        simp [eidCount, if_neg hkout]
    · intro q hq
      rcases List.mem_append.mp hq with hq' | hq'
      · exact hci q hq'
      · simp only [List.mem_singleton] at hq'
        subst hq'
        simp [eidCount, if_neg hkin]

theorem integ_addVertex (g : Graph) (v : VInput)
    (hok : opOkB g (.addV v) = true)
    (hF : eidFresh g) (hE : edgeIntegrity g) :
    eidFresh (addVertex g v).1 ∧ edgeIntegrity (addVertex g v).1 := by
  unfold addVertex
  by_cases h0 : v.vid = 0
  · simp only [if_pos h0]
    have hnone : lookupA g.vertexIndex g.autoid = none := by
      simp only [opOkB, h0] at hok
      simpa using hok
    exact integ_appendVertex g g.autoid v.props (g.autoid + 1) hnone hF hE
  · simp only [if_neg h0]
    by_cases hd : (lookupA g.vertexIndex v.vid).isSome = true
    · simp only [if_pos hd]
      exact ⟨hF, hE⟩
    · simp only [if_neg hd]
      exact integ_appendVertex g v.vid v.props g.autoid
        (lookupA_not_isSome_eq_none hd) hF hE

theorem integ_pushEdge (g : Graph) (ko ki : Nat) (er : EdgeRec)
    (heid : er.eid = g.nextEid) (heo : er.outId = ko) (hei : er.inId = ki)
    (hinS : (lookupA g.vertexIndex ki).isSome = true)
    (houtS : (lookupA g.vertexIndex ko).isSome = true)
    (hF : eidFresh g) (hE : edgeIntegrity g) :
    eidFresh { g with
            vertices := adjPushIn (adjPushOut g.vertices ko er) ki er,
            vertexIndex := adjPushIn (adjPushOut g.vertexIndex ko er) ki er,
            edges := mapSet g.edges (edgeKey er) er,
            edgeIndex := mapSet g.edgeIndex (edgeKey er) er,
            nextEid := g.nextEid + 1 }
    ∧ edgeIntegrity ({ g with
            vertices := adjPushIn (adjPushOut g.vertices ko er) ki er,
            vertexIndex := adjPushIn (adjPushOut g.vertexIndex ko er) ki er,
            edges := mapSet g.edges (edgeKey er) er,
            edgeIndex := mapSet g.edgeIndex (edgeKey er) er,
            nextEid := g.nextEid + 1 }) := by
  have hkeep : ∀ k, (lookupA
      (adjPushIn (adjPushOut g.vertexIndex ko er) ki er) k).isSome
      = (lookupA g.vertexIndex k).isSome := by
    intro k
    rw [adjPush2_eq_map]
    exact isSome_lookupA_map_keep _ (pushFn_keeps _ _ _) g.vertexIndex k
  constructor
  · constructor
    · intro p hp
      show p.2.eid < g.nextEid + 1
      rcases mem_mapSet hp with rfl | ⟨hp', _⟩
      · exact heid ▸ Nat.lt_succ_self _
      · exact Nat.lt_succ_of_lt (hF.1 p hp')
    · intro q hq
      have hq' : q ∈ adjPushIn (adjPushOut g.vertexIndex ko er) ki er := hq
      rw [adjPush2_eq_map] at hq'
      obtain ⟨p, hp, hq2⟩ := List.mem_map.mp hq'
      obtain ⟨hfo, hfi⟩ := hF.2 p hp
      subst hq2
      constructor
      · intro e' he'
        show e'.eid < g.nextEid + 1
        by_cases hpk : p.1 = ko
        · simp only [pushFn, if_pos hpk] at he'
          rcases List.mem_append.mp he' with he2 | he2
          · exact Nat.lt_succ_of_lt (hfo e' he2)
          · simp only [List.mem_singleton] at he2
            subst he2
            exact heid ▸ Nat.lt_succ_self _
        · simp only [pushFn, if_neg hpk] at he'
          exact Nat.lt_succ_of_lt (hfo e' he')
      · intro e' he'
        show e'.eid < g.nextEid + 1
        by_cases hpk : p.1 = ki
        · simp only [pushFn, if_pos hpk] at he'
          rcases List.mem_append.mp he' with he2 | he2
          · exact Nat.lt_succ_of_lt (hfi e' he2)
          · simp only [List.mem_singleton] at he2
            subst he2
            exact heid ▸ Nat.lt_succ_self _
        · simp only [pushFn, if_neg hpk] at he'
          exact Nat.lt_succ_of_lt (hfi e' he')
  · intro p hp
    have hp' : p ∈ mapSet g.edgeIndex (edgeKey er) er := hp
    rcases mem_mapSet hp' with rfl | ⟨hpold, _⟩
    · -- the freshly inserted edge
      refine ⟨?_, ?_, ?_, ?_⟩
      · show (lookupA (adjPushIn (adjPushOut g.vertexIndex ko er) ki er)
            er.outId).isSome = true
        rw [hkeep, heo]
        exact houtS
      · show (lookupA (adjPushIn (adjPushOut g.vertexIndex ko er) ki er)
            er.inId).isSome = true
        rw [hkeep, hei]
        exact hinS
      · intro q hq
        have hq' : q ∈ adjPushIn (adjPushOut g.vertexIndex ko er) ki er := hq
        rw [adjPush2_eq_map] at hq'
        obtain ⟨p0, hp0, hq2⟩ := List.mem_map.mp hq'
        subst hq2
        have hz : eidCount p0.2.outE er.eid = 0 :=
          eidCount_eq_zero _ _ (fun e' he' =>
            Nat.ne_of_lt (by rw [heid]; exact (hF.2 p0 hp0).1 e' he'))
        by_cases hpk : p0.1 = ko
        · dsimp only [pushFn]
          rw [if_pos hpk, eidCount_append, hz, eidCount_single]
          simp [heo, hpk]
        · dsimp only [pushFn]
          rw [if_neg hpk, hz]
          simp [heo, hpk]
      · intro q hq
        have hq' : q ∈ adjPushIn (adjPushOut g.vertexIndex ko er) ki er := hq
        rw [adjPush2_eq_map] at hq'
        obtain ⟨p0, hp0, hq2⟩ := List.mem_map.mp hq'
        subst hq2
        have hz : eidCount p0.2.inE er.eid = 0 :=
          eidCount_eq_zero _ _ (fun e' he' =>
            Nat.ne_of_lt (by rw [heid]; exact (hF.2 p0 hp0).2 e' he'))
        by_cases hpk : p0.1 = ki
        · dsimp only [pushFn]
          rw [if_pos hpk, eidCount_append, hz, eidCount_single]
          simp [hei, hpk]
        · dsimp only [pushFn]
          rw [if_neg hpk, hz]
          simp [hei, hpk]
    · -- an edge already present (under a different key)
      obtain ⟨ho, hi, hco, hci⟩ := hE p hpold
      have hne : ¬er.eid = p.2.eid := by
        rw [heid]
        exact fun hh => Nat.ne_of_lt (hF.1 p hpold) hh.symm
      refine ⟨?_, ?_, ?_, ?_⟩
      · show (lookupA (adjPushIn (adjPushOut g.vertexIndex ko er) ki er)
            p.2.outId).isSome = true
        rw [hkeep]
        exact ho
      · show (lookupA (adjPushIn (adjPushOut g.vertexIndex ko er) ki er)
            p.2.inId).isSome = true
        rw [hkeep]
        exact hi
      · intro q hq
        have hq' : q ∈ adjPushIn (adjPushOut g.vertexIndex ko er) ki er := hq
        rw [adjPush2_eq_map] at hq'
        obtain ⟨p0, hp0, hq2⟩ := List.mem_map.mp hq'
        subst hq2
        by_cases hpk : p0.1 = ko
        · dsimp only [pushFn]
          rw [if_pos hpk, eidCount_append, eidCount_single, if_neg hne,
            Nat.add_zero]
          exact hco p0 hp0
        · dsimp only [pushFn]
          rw [if_neg hpk]
          exact hco p0 hp0
      · intro q hq
        have hq' : q ∈ adjPushIn (adjPushOut g.vertexIndex ko er) ki er := hq
        rw [adjPush2_eq_map] at hq'
        obtain ⟨p0, hp0, hq2⟩ := List.mem_map.mp hq'
        subst hq2
        by_cases hpk : p0.1 = ki
        · dsimp only [pushFn]
          rw [if_pos hpk, eidCount_append, eidCount_single, if_neg hne,
            Nat.add_zero]
          exact hci p0 hp0
        · dsimp only [pushFn]
          rw [if_neg hpk]
          exact hci p0 hp0

theorem integ_addEdge (g : Graph) (e : EInput)
    (hF : eidFresh g) (hE : edgeIntegrity g) :
    eidFresh (addEdge g e).1 ∧ edgeIntegrity (addEdge g e).1 := by
  unfold addEdge
  cases hin : lookupA g.vertexIndex e.inId with
  | none => exact ⟨hF, hE⟩
  | some vin =>
    cases hout : lookupA g.vertexIndex e.outId with
    | none => exact ⟨hF, hE⟩
    | some vout =>
      exact integ_pushEdge g e.outId e.inId
        ⟨g.nextEid, e.outId, e.inId, e.label, e.eprops⟩ rfl rfl rfl
        (by rw [hin]; rfl) (by rw [hout]; rfl) hF hE

theorem integ_foldl (ops : List Op) : ∀ g, buildOkB g ops = true →
    eidFresh g → edgeIntegrity g →
    eidFresh (ops.foldl applyOp g) ∧ edgeIntegrity (ops.foldl applyOp g) := by
  induction ops with
  | nil => exact fun g _ hF hE => ⟨hF, hE⟩
  | cons op rest ih =>
    intro g hok hF hE
    simp only [buildOkB, Bool.and_eq_true] at hok
    have hstep : eidFresh (applyOp g op) ∧ edgeIntegrity (applyOp g op) := by
      cases op with
      | addV v => exact integ_addVertex g v hok.1 hF hE
      | addE e => exact integ_addEdge g e hF hE
    exact ih (applyOp g op) hok.2 hstep.1 hstep.2

/-! ## Snapshot round-trip lemmas -/

theorem cleanLookup_adjPush (m : List (Nat × VertexRec)) (ko ki : Nat)
    (er : EdgeRec) (id : Nat) :
    (lookupA (adjPushIn (adjPushOut m ko er) ki er) id).map cleanVertexS
      = (lookupA m id).map cleanVertexS := by
  rw [adjPush2_eq_map, lookupA_map_keep _ (pushFn_keeps _ _ _)]
  cases lookupA m id <;> rfl

theorem lookupA_clean_pair (m : List (String × EdgeRec)) (k : String) :
    lookupA (m.map (fun p => (p.1, cleanEdgeS p.2))) k
      = (lookupA m k).map cleanEdgeS := by
  rw [lookupA_map_keep (fun p => (p.1, cleanEdgeS p.2)) (fun p => rfl)]

theorem foldV_spec (V : List VInput) : ∀ g : Graph,
    (∀ v ∈ V, v.vid ≠ 0 ∧ lookupA g.vertexIndex v.vid = none) →
    (V.map VInput.vid).Nodup →
    (foldV g V).vertexIndex
      = g.vertexIndex
        ++ V.map (fun v => (v.vid, (⟨v.vid, v.props, [], []⟩ : VertexRec)))
    ∧ (foldV g V).edges = g.edges
    ∧ (foldV g V).edgeIndex = g.edgeIndex := by
  induction V with
  | nil =>
    intro g _ _
    exact ⟨by simp [foldV], rfl, rfl⟩
  | cons v rest ih =>
    intro g hv hnd
    obtain ⟨h0, hnone⟩ := hv v (List.mem_cons_self v rest)
    have hstep : (addVertex g v).1
        = { g with
            vertices := mapSet g.vertices v.vid ⟨v.vid, v.props, [], []⟩,
            vertexIndex := g.vertexIndex
              ++ [(v.vid, (⟨v.vid, v.props, [], []⟩ : VertexRec))] } := by
      rw [← mapSet_eq_append _ hnone]
      unfold addVertex
      rw [if_neg h0, hnone]
      rfl
    have hfold : foldV g (v :: rest) = foldV (addVertex g v).1 rest := rfl
    rw [hfold, hstep]
    have hvid : v.vid ∉ rest.map VInput.vid := by
      have := hnd
      simp only [List.map_cons, List.nodup_cons] at this
      exact this.1
    have hrest := ih { g with
            vertices := mapSet g.vertices v.vid ⟨v.vid, v.props, [], []⟩,
            vertexIndex := g.vertexIndex
              ++ [(v.vid, (⟨v.vid, v.props, [], []⟩ : VertexRec))] }
      (by
        intro v' hv'
        refine ⟨(hv v' (List.mem_cons_of_mem _ hv')).1, ?_⟩
        show lookupA (g.vertexIndex ++ [(v.vid, _)]) v'.vid = none
        rw [lookupA_append_right _ (hv v' (List.mem_cons_of_mem _ hv')).2]
        have hne : ¬v.vid = v'.vid := by
          intro hh
          exact hvid (hh ▸ List.mem_map.mpr ⟨v', hv', rfl⟩)
        simp [lookupA, hne])
      (by
        simp only [List.map_cons, List.nodup_cons] at hnd
        exact hnd.2)
    refine ⟨?_, hrest.2.1, hrest.2.2⟩
    rw [hrest.1]
    simp [List.append_assoc]

theorem foldE_spec (E : List EInput) : ∀ g : Graph,
    (∀ e ∈ E, (lookupA g.vertexIndex e.inId).isSome = true
            ∧ (lookupA g.vertexIndex e.outId).isSome = true) →
    (∀ e ∈ E, lookupA g.edgeIndex (eKeyInput e) = none) →
    (E.map eKeyInput).Nodup →
    (∀ id, (lookupA (foldE g E).vertexIndex id).map cleanVertexS
         = (lookupA g.vertexIndex id).map cleanVertexS)
    ∧ (∀ k, (lookupA (foldE g E).edgeIndex k).map cleanEdgeS
          = lookupA (g.edgeIndex.map (fun p => (p.1, cleanEdgeS p.2))
                     ++ E.map (fun e => (eKeyInput e, e))) k) := by
  induction E with
  | nil =>
    intro g _ _ _
    constructor
    · intro id; rfl
    · intro k
      simp only [foldE, List.foldl_nil, List.map_nil, List.append_nil,
        lookupA_clean_pair]
  | cons e rest ih =>
    intro g hvp hkn hnd
    obtain ⟨hiS, hoS⟩ := hvp e (List.mem_cons_self e rest)
    obtain ⟨vin, hin⟩ := Option.isSome_iff_exists.mp hiS
    obtain ⟨vout, hout⟩ := Option.isSome_iff_exists.mp hoS
    have hkey0 : lookupA g.edgeIndex (eKeyInput e) = none :=
      hkn e (List.mem_cons_self e rest)
    have hstep : (addEdge g e).1
        = { g with
            vertices := adjPushIn (adjPushOut g.vertices e.outId
              ⟨g.nextEid, e.outId, e.inId, e.label, e.eprops⟩) e.inId
              ⟨g.nextEid, e.outId, e.inId, e.label, e.eprops⟩,
            vertexIndex := adjPushIn (adjPushOut g.vertexIndex e.outId
              ⟨g.nextEid, e.outId, e.inId, e.label, e.eprops⟩) e.inId
              ⟨g.nextEid, e.outId, e.inId, e.label, e.eprops⟩,
            edges := mapSet g.edges (eKeyInput e)
              ⟨g.nextEid, e.outId, e.inId, e.label, e.eprops⟩,
            edgeIndex := g.edgeIndex
              ++ [(eKeyInput e,
                   (⟨g.nextEid, e.outId, e.inId, e.label, e.eprops⟩ : EdgeRec))],
            nextEid := g.nextEid + 1 } := by
      rw [← mapSet_eq_append _ hkey0]
      unfold addEdge
      rw [hin, hout]
      rfl
    have hyp1 : ∀ e' ∈ rest,
        (lookupA (addEdge g e).1.vertexIndex e'.inId).isSome = true
        ∧ (lookupA (addEdge g e).1.vertexIndex e'.outId).isSome = true := by
      intro e' he'
      obtain ⟨h1, h2⟩ := hvp e' (List.mem_cons_of_mem _ he')
      rw [hstep]
      dsimp only
      rw [adjPush2_eq_map]
      constructor
      · rw [isSome_lookupA_map_keep _ (pushFn_keeps _ _ _)]
        exact h1
      · rw [isSome_lookupA_map_keep _ (pushFn_keeps _ _ _)]
        exact h2
    have hyp2 : ∀ e' ∈ rest,
        lookupA (addEdge g e).1.edgeIndex (eKeyInput e') = none := by
      intro e' he'
      rw [hstep]
      dsimp only
      rw [lookupA_append_right _ (hkn e' (List.mem_cons_of_mem _ he'))]
      have hne : ¬eKeyInput e = eKeyInput e' := by
        intro hh
        have hnm : eKeyInput e ∉ rest.map eKeyInput := by
          simp only [List.map_cons, List.nodup_cons] at hnd
          exact hnd.1
        exact hnm (hh ▸ List.mem_map.mpr ⟨e', he', rfl⟩)
      simp [lookupA, hne]
    have hyp3 : (rest.map eKeyInput).Nodup := by
      simp only [List.map_cons, List.nodup_cons] at hnd
      exact hnd.2
    obtain ⟨ha, hb⟩ := ih (addEdge g e).1 hyp1 hyp2 hyp3
    have hfold : foldE g (e :: rest) = foldE (addEdge g e).1 rest := rfl
    constructor
    · intro id
      rw [hfold, ha id, hstep]
      dsimp only
      exact cleanLookup_adjPush g.vertexIndex _ _ _ id
    · intro k
      rw [hfold, hb k, hstep]
      dsimp only
      congr 1
      simp only [List.map_append, List.map_cons, List.map_nil,
        List.append_assoc]
      rfl

/-! ## The `unique` stage never re-emits a vertex id -/

theorem uniqueRun_spec (l : List (Option Gremlin)) : ∀ st : UniqueState,
    ((uniqueRun l st).1.map (fun gr => gr.vertex.vid)).Nodup
    ∧ ∀ x ∈ (uniqueRun l st).1.map (fun gr => gr.vertex.vid),
        x ∉ st.visited := by
  induction l with
  | nil =>
    intro st
    refine ⟨by simp [uniqueRun], by simp [uniqueRun]⟩
  | cons i rest ih =>
    intro st
    cases i with
    | none =>
      have h := ih st
      simpa only [uniqueRun, uniqueStep] using h
    | some gr =>
      by_cases hv : gr.vertex.vid ∈ st.visited
      · have h := ih st
        simpa only [uniqueRun, uniqueStep, if_pos hv] using h
      · have h := ih ⟨gr.vertex.vid :: st.visited⟩
        simp only [uniqueRun, uniqueStep, if_neg hv, List.map_cons]
        constructor
        · rw [List.nodup_cons]
          refine ⟨fun hmem => ?_, h.1⟩
          exact h.2 _ hmem (List.mem_cons_self _ _)
        · intro x hx
          rcases List.mem_cons.mp hx with rfl | hx'
          · exact hv
          · intro hxv
            exact h.2 x hx' (List.mem_cons_of_mem _ hxv)

/-! ## The transformer registration loop never registers -/

theorem getElem_replicate_append {α : Type} (t u : α) :
    ∀ i, (List.replicate i t ++ [u])[i]? = some u := by
  intro i
  induction i with
  | zero => rfl
  | succ n ih =>
    simp only [List.replicate, List.cons_append, List.getElem?_cons_succ]
    exact ih

theorem take_replicate_append {α : Type} (t : α) (l : List α) :
    ∀ i, (List.replicate i t ++ l).take i = List.replicate i t := by
  intro i
  induction i with
  | zero => rfl
  | succ n ih =>
    simp only [List.replicate, List.cons_append, List.take_succ_cons]
    rw [ih]

theorem drop_replicate_append {α : Type} (t : α) (l : List α) :
    ∀ i, (List.replicate i t ++ l).drop i = l := by
  intro i
  induction i with
  | zero => rfl
  | succ n ih =>
    simp only [List.replicate, List.cons_append, List.drop_succ_cons]
    exact ih

theorem spliceIn_replicate (t u : Transformer) (i : Nat) :
    spliceIn (List.replicate i t ++ [u]) i t
      = List.replicate (i + 1) t ++ [u] := by
  unfold spliceIn
  rw [take_replicate_append, drop_replicate_append, List.replicate_succ' i t]
  simp

theorem addTransformerLoop_diverges (t u : Transformer)
    (hp : ¬u.priority < t.priority) :
    ∀ fuel i, addTransformerLoop t fuel i (List.replicate i t ++ [u])
      = none := by
  intro fuel
  induction fuel with
  | zero => intro i; rfl
  | succ n ih =>
    intro i
    have hget := getElem_replicate_append t u i
    simp only [addTransformerLoop, hget, if_neg hp]
    rw [spliceIn_replicate t u i]
    exact ih (i + 1)

/-! ## Round-trip for any well-formed store -/

theorem roundtrip_of_GInv (g : Graph) (hg : GInv g) :
    sameVerticesUpTo g (fromSnapshot (jsonifySnapshot g))
    ∧ sameEdgesUpTo g (fromSnapshot (jsonifySnapshot g)) := by
  have hV : (jsonifySnapshot g).1
      = g.vertexIndex.map (fun p => cleanVertexS p.2) := by
    show g.vertices.map (fun p => cleanVertexS p.2) = _
    rw [hg.vsync]
  have hE : (jsonifySnapshot g).2
      = g.edgeIndex.map (fun p => cleanEdgeS p.2) := by
    show g.edges.map (fun p => cleanEdgeS p.2) = _
    rw [hg.esync]
  -- Phase 1: re-inserting the serialized vertices
  have hyp1 : ∀ v ∈ (jsonifySnapshot g).1,
      v.vid ≠ 0 ∧ lookupA emptyGraph.vertexIndex v.vid = none := by
    intro v hv
    rw [hV] at hv
    obtain ⟨p, hp, hpv⟩ := List.mem_map.mp hv
    refine ⟨?_, rfl⟩
    rw [← hpv]
    exact (hg.kvid p hp).2
  have hyp2 : ((jsonifySnapshot g).1.map VInput.vid).Nodup := by
    rw [hV, List.map_map]
    have heq : g.vertexIndex.map (VInput.vid ∘ fun p => cleanVertexS p.2)
        = g.vertexIndex.map Prod.fst := by
      refine List.map_congr_left (fun p hp => ?_)
      exact ((hg.kvid p hp).1).symm
    rw [heq]
    exact hg.vkeys
  obtain ⟨hVix, hVe, hVeIx⟩ :=
    foldV_spec (jsonifySnapshot g).1 emptyGraph hyp1 hyp2
  have hg1v : (foldV emptyGraph (jsonifySnapshot g).1).vertexIndex
      = g.vertexIndex.map (fun p =>
          (p.1, (⟨p.2.vid, p.2.props, [], []⟩ : VertexRec))) := by
    rw [hVix, hV, List.map_map]
    show emptyGraph.vertexIndex ++ _ = _
    rw [show emptyGraph.vertexIndex = [] from rfl, List.nil_append]
    refine List.map_congr_left (fun p hp => ?_)
    dsimp only [Function.comp, cleanVertexS]
    rw [(hg.kvid p hp).1]
  have hlook1 : ∀ id,
      lookupA (foldV emptyGraph (jsonifySnapshot g).1).vertexIndex id
        = (lookupA g.vertexIndex id).map
            (fun vr => (⟨vr.vid, vr.props, [], []⟩ : VertexRec)) := by
    intro id
    rw [hg1v, lookupA_map_keep
      (fun p : Nat × VertexRec =>
        (p.1, (⟨p.2.vid, p.2.props, [], []⟩ : VertexRec)))
      (fun p => rfl) g.vertexIndex id]
  -- Phase 2: re-inserting the serialized edges
  have hyp3 : ∀ e ∈ (jsonifySnapshot g).2,
      (lookupA (foldV emptyGraph (jsonifySnapshot g).1).vertexIndex
        e.inId).isSome = true
      ∧ (lookupA (foldV emptyGraph (jsonifySnapshot g).1).vertexIndex
        e.outId).isSome = true := by
    intro e he
    rw [hE] at he
    obtain ⟨p, hp, hpe⟩ := List.mem_map.mp he
    obtain ⟨ho, hi⟩ := hg.eendp p hp
    rw [← hpe]
    constructor
    · show (lookupA _ p.2.inId).isSome = true
      rw [hlook1]
      obtain ⟨w, hw⟩ := Option.isSome_iff_exists.mp hi
      rw [hw]
      rfl
    · show (lookupA _ p.2.outId).isSome = true
      rw [hlook1]
      obtain ⟨w, hw⟩ := Option.isSome_iff_exists.mp ho
      rw [hw]
      rfl
  have hyp4 : ∀ e ∈ (jsonifySnapshot g).2,
      lookupA (foldV emptyGraph (jsonifySnapshot g).1).edgeIndex
        (eKeyInput e) = none := by
    intro e _
    rw [hVeIx]
    rfl
  have hyp5 : ((jsonifySnapshot g).2.map eKeyInput).Nodup := by
    rw [hE, List.map_map]
    have heq : g.edgeIndex.map (eKeyInput ∘ fun p => cleanEdgeS p.2)
        = g.edgeIndex.map Prod.fst := by
      refine List.map_congr_left (fun p hp => ?_)
      exact (hg.ekey p hp).symm
    rw [heq]
    exact hg.ekeys
  obtain ⟨ha, hb⟩ :=
    foldE_spec (jsonifySnapshot g).2 (foldV emptyGraph (jsonifySnapshot g).1)
      hyp3 hyp4 hyp5
  constructor
  · intro id
    show (lookupA g.vertexIndex id).map cleanVertexS
        = (lookupA (foldE (foldV emptyGraph (jsonifySnapshot g).1)
            (jsonifySnapshot g).2).vertexIndex id).map cleanVertexS
    rw [ha id, hlook1 id]
    cases lookupA g.vertexIndex id <;> rfl
  · intro k
    show (lookupA g.edgeIndex k).map cleanEdgeS
        = (lookupA (foldE (foldV emptyGraph (jsonifySnapshot g).1)
            (jsonifySnapshot g).2).edgeIndex k).map cleanEdgeS
    rw [hb k, hVeIx]
    rw [show (emptyGraph.edgeIndex.map (fun p => (p.1, cleanEdgeS p.2)))
        = ([] : List (String × EInput)) from rfl, List.nil_append]
    rw [hE, List.map_map]
    have heq : g.edgeIndex.map ((fun e => (eKeyInput e, e))
          ∘ fun p => cleanEdgeS p.2)
        = g.edgeIndex.map (fun p => (p.1, cleanEdgeS p.2)) := by
      refine List.map_congr_left (fun p hp => ?_)
      dsimp only [Function.comp]
      rw [show eKeyInput (cleanEdgeS p.2) = edgeKey p.2 from rfl,
        ← hg.ekey p hp]
    rw [heq, lookupA_clean_pair]

/-! ## The claims -/

/-- C1 (code bug): the claim says a transformer registered via
`addTransformer` appears exactly once in the registry, in descending
priority order, and is applied once before execution.  The registration
loop actually never registers anything: on an empty registry the loop body
never runs and the registry stays empty (first conjunct), and whenever the
new priority is not above the head's the loop splices forever — modelled by
running out of any amount of fuel (second conjunct).  (When the priority is
above the head's the loop breaks immediately, again without inserting.) -/
theorem addTransformer_never_registers :
    addTransformerModel ⟨100, 0⟩ [] 1000 = some []
    ∧ ∀ fuel, addTransformerModel ⟨100, 0⟩ [⟨200, 1⟩] fuel = none := by
  constructor
  · rfl
  · intro fuel
    have h := addTransformerLoop_diverges ⟨100, 0⟩ ⟨200, 1⟩ (by decide) fuel 0
    simpa using h

/-- C2 (code bug): the claim says every `merge` invocation totally
evaluates (returning `Pull` when it has nothing to emit), including an
invocation with no input gremlin after its cached list has been emptied.
The code instead throws (`none`): with an emptied cache and no gremlin it
dereferences `gremlin.state` while refilling (first conjunct), and with a
non-empty cache and no gremlin it dereferences `gremlin.state` in
`makeGremlin` (second conjunct).  The third conjunct shows the claim's
emission behavior on the non-faulting path: one gremlin per checkpointed
label, popped in reverse argument order, sharing the triggering gremlin's
checkpoint state. -/
theorem merge_faults_on_missing_gremlin :
    mergeStep ["x"] none ⟨some []⟩ = none
    ∧ mergeStep ["x"] none ⟨some [⟨7, [], [], []⟩]⟩ = none
    ∧ mergeStep ["x", "y"] (some mergeGremlin) ⟨none⟩
      = some (PipeResult.val (some (makeGremlin ⟨2, [], [], []⟩
          mergeGremlin.state)), ⟨some [⟨1, [], [], []⟩]⟩) :=
  ⟨rfl, rfl, rfl⟩

/-- C3 counterexample: the claim says the all-vertices → `property("name")`
query on the scenario store yields exactly `["a", "b"]`.  It does not: the
`vertex` stage pops its cached candidate list from the end, so `"b"` is
emitted first. -/
theorem scenarioB_order_counterexample :
    engineRun scenarioGraph [Step.vertexS [], Step.propertyS "name"] 1000
      ≠ [QueryResult.value "a", QueryResult.value "b"] := by
  decide

/-- C3 (amended): the query yields exactly `["b", "a"]` — the engine's
LIFO emission order pops the most recently stored vertex first. -/
theorem scenarioB_lifo_order :
    engineRun scenarioGraph [Step.vertexS [], Step.propertyS "name"] 1000
      = [QueryResult.value "b", QueryResult.value "a"] := by
  decide

/-- C4 counterexample: the claim says after EVERY insertion sequence each
indexed edge sits exactly once in its endpoints' adjacency lists.  The
sequence `integrityCeOps` breaks it: its last insertion auto-assigns id 1
and silently replaces vertex 1, so the indexed edge `1->2:knows` no longer
appears in the out-adjacency of the vertex stored under id 1. -/
theorem edge_integrity_counterexample :
    ¬ edgeIntegrity (buildGraph integrityCeOps) := by
  decide

/-- C4 (amended): after every sequence of insertions in which no
auto-assigned vertex id collides with a present vertex id (no insertion
overwrites a vertex), every edge in the edge index has both endpoints
present in the vertex index and appears exactly once in the out-adjacency
of its source and the in-adjacency of its target, and in no other
adjacency list. -/
theorem edge_integrity_no_overwrite (ops : List Op)
    (h : buildOkB emptyGraph ops = true) : edgeIntegrity (buildGraph ops) :=
  (integ_foldl ops emptyGraph h (by decide) (by decide)).2

/-- Witness for C4's amended theorem at the scenario insertions. -/
theorem edge_integrity_no_overwrite_witness :
    buildOkB emptyGraph scenarioOps = true
    ∧ edgeIntegrity (buildGraph scenarioOps) :=
  ⟨by decide, edge_integrity_no_overwrite scenarioOps (by decide)⟩

/-- C5: inserting a vertex whose caller-supplied id (nonzero, i.e. not
JS-falsy) is already indexed fails with the duplicate-id signal and leaves
the store — both maps, hence count and contents — completely unchanged;
on a store without the id, insertion returns the assigned id, a second
insertion of the same id fails leaving the store unchanged, and exactly
one vertex with that id remains.  `GInv g` states the store is
well-formed, as every store reachable through the API is
(`GInv_buildGraph`). -/
theorem addVertex_duplicate_id (g : Graph) (v : VInput) (hg : GInv g)
    (hv : v.vid ≠ 0) :
    ((lookupA g.vertexIndex v.vid).isSome = true →
        addVertex g v = (g, AddVertexResult.duplicateIdError))
    ∧ (lookupA g.vertexIndex v.vid = none →
        (addVertex g v).2 = AddVertexResult.ok v.vid
        ∧ addVertex (addVertex g v).1 v
            = ((addVertex g v).1, AddVertexResult.duplicateIdError)
        ∧ ((addVertex g v).1.vertexIndex.map Prod.fst).count v.vid = 1
        ∧ ((addVertex g v).1.vertices.map Prod.fst).count v.vid = 1) := by
  have hdup : ∀ g' : Graph, (lookupA g'.vertexIndex v.vid).isSome = true →
      addVertex g' v = (g', AddVertexResult.duplicateIdError) := by
    intro g' hd
    unfold addVertex
    rw [if_neg hv, if_pos hd]
  refine ⟨hdup g, ?_⟩
  intro hn
  have hn' : lookupA g.vertices v.vid = none := by
    rw [hg.vsync]
    exact hn
  have hstep : (addVertex g v).1
      = { g with
          vertices := g.vertices
            ++ [(v.vid, (⟨v.vid, v.props, [], []⟩ : VertexRec))],
          vertexIndex := g.vertexIndex
            ++ [(v.vid, (⟨v.vid, v.props, [], []⟩ : VertexRec))] } := by
    unfold addVertex
    rw [if_neg hv, hn]
    dsimp only
    rw [mapSet_eq_append _ hn', mapSet_eq_append _ hn]
    rfl
  refine ⟨?_, ?_, ?_, ?_⟩
  · unfold addVertex
    rw [if_neg hv, hn]
    rfl
  · refine hdup (addVertex g v).1 ?_
    rw [hstep]
    show (lookupA (g.vertexIndex ++ _) v.vid).isSome = true
    rw [lookupA_append_right _ hn]
    simp [lookupA]
  · rw [hstep]
    show ((g.vertexIndex ++ _).map Prod.fst).count v.vid = 1
    rw [List.map_append, List.count_append,
      List.count_eq_zero.mpr (lookupA_eq_none_iff.mp hn)]
    simp
  · rw [hstep]
    show ((g.vertices ++ _).map Prod.fst).count v.vid = 1
    rw [List.map_append, List.count_append,
      List.count_eq_zero.mpr (lookupA_eq_none_iff.mp hn')]
    simp

/-- Witness for C5 on the empty store and vertex id 1. -/
theorem addVertex_duplicate_id_witness :
    GInv emptyGraph ∧ (1 : Nat) ≠ 0
    ∧ ((addVertex emptyGraph ⟨1, [("name", "a")]⟩).2
        = AddVertexResult.ok 1
       ∧ addVertex (addVertex emptyGraph ⟨1, [("name", "a")]⟩).1
            ⟨1, [("name", "a")]⟩
          = ((addVertex emptyGraph ⟨1, [("name", "a")]⟩).1,
             AddVertexResult.duplicateIdError)
       ∧ ((addVertex emptyGraph ⟨1, [("name", "a")]⟩).1.vertexIndex.map
            Prod.fst).count 1 = 1
       ∧ ((addVertex emptyGraph ⟨1, [("name", "a")]⟩).1.vertices.map
            Prod.fst).count 1 = 1) :=
  ⟨GInv_empty, by decide,
   (addVertex_duplicate_id emptyGraph ⟨1, [("name", "a")]⟩ GInv_empty
      (by decide)).2 rfl⟩

/-- C6: when the auto-increment counter collides with an id a caller
supplied earlier, inserting a vertex WITHOUT an id succeeds (`ok`, no
failure signal), assigns the colliding id, and silently replaces the
existing vertex in both the vertex map and the index: the id now retrieves
the fresh record, so the old vertex is no longer reachable.  The
duplicate-id check guards only caller-supplied ids. -/
theorem autoid_collision_replaces (g : Graph) (ps : List (String × String))
    (w : VertexRec) (_hcollide : lookupA g.vertexIndex g.autoid = some w) :
    (addVertex g ⟨0, ps⟩).2 = AddVertexResult.ok g.autoid
    ∧ lookupA (addVertex g ⟨0, ps⟩).1.vertexIndex g.autoid
        = some ⟨g.autoid, ps, [], []⟩
    ∧ lookupA (addVertex g ⟨0, ps⟩).1.vertices g.autoid
        = some ⟨g.autoid, ps, [], []⟩ := by
  refine ⟨rfl, ?_, ?_⟩
  · show lookupA (mapSet g.vertexIndex g.autoid _) g.autoid = _
    rw [lookupA_mapSet_self]
  · show lookupA (mapSet g.vertices g.autoid _) g.autoid = _
    rw [lookupA_mapSet_self]

/-- Witness for C6: after inserting `{_id: 1}` explicitly, an id-less
insertion auto-assigns the colliding id 1 and replaces the vertex. -/
theorem autoid_collision_replaces_witness :
    lookupA (addVertex emptyGraph ⟨1, [("name", "a")]⟩).1.vertexIndex
      (addVertex emptyGraph ⟨1, [("name", "a")]⟩).1.autoid
      = some ⟨1, [("name", "a")], [], []⟩
    ∧ ((addVertex (addVertex emptyGraph ⟨1, [("name", "a")]⟩).1
          ⟨0, [("name", "z")]⟩).2 = AddVertexResult.ok 1
       ∧ lookupA (addVertex (addVertex emptyGraph ⟨1, [("name", "a")]⟩).1
            ⟨0, [("name", "z")]⟩).1.vertexIndex 1
          = some ⟨1, [("name", "z")], [], []⟩
       ∧ lookupA (addVertex (addVertex emptyGraph ⟨1, [("name", "a")]⟩).1
            ⟨0, [("name", "z")]⟩).1.vertices 1
          = some ⟨1, [("name", "z")], [], []⟩) :=
  ⟨rfl,
   autoid_collision_replaces (addVertex emptyGraph ⟨1, [("name", "a")]⟩).1
     [("name", "z")] ⟨1, [("name", "a")], [], []⟩ rfl⟩

/-- C7: inserting an edge with a missing endpoint fails with a signal
naming a side that is in fact missing (`"in"` when the target lookup
fails, else `"out"`), and the store is returned completely unchanged — no
adjacency list is touched and no index entry is created. -/
theorem addEdge_dangling_endpoint (g : Graph) (e : EInput)
    (h : lookupA g.vertexIndex e.inId = none
       ∨ lookupA g.vertexIndex e.outId = none) :
    ∃ side, addEdge g e = (g, AddEdgeResult.missingEndpointError side)
      ∧ ((side = "in" ∧ lookupA g.vertexIndex e.inId = none)
         ∨ (side = "out" ∧ lookupA g.vertexIndex e.outId = none)) := by
  cases hin : lookupA g.vertexIndex e.inId with
  | none =>
    refine ⟨"in", ?_, Or.inl ⟨rfl, rfl⟩⟩
    unfold addEdge
    rw [hin]
  | some vin =>
    cases hout : lookupA g.vertexIndex e.outId with
    | none =>
      refine ⟨"out", ?_, Or.inr ⟨rfl, rfl⟩⟩
      unfold addEdge
      rw [hin, hout]
    | some vout =>
      rcases h with h | h
      · rw [hin] at h
        exact absurd h (by simp)
      · rw [hout] at h
        exact absurd h (by simp)

/-- Witness for C7 on the empty store. -/
theorem addEdge_dangling_endpoint_witness :
    (lookupA emptyGraph.vertexIndex 1 = none
      ∨ lookupA emptyGraph.vertexIndex 2 = none)
    ∧ ∃ side, addEdge emptyGraph ⟨1, 2, "knows", []⟩
          = (emptyGraph, AddEdgeResult.missingEndpointError side)
        ∧ ((side = "in" ∧ lookupA emptyGraph.vertexIndex 2 = none)
           ∨ (side = "out" ∧ lookupA emptyGraph.vertexIndex 1 = none)) :=
  ⟨Or.inl rfl,
   addEdge_dangling_endpoint emptyGraph ⟨1, 2, "knows", []⟩ (Or.inl rfl)⟩

/-- C8: folding any sequence of invocations through a `unique` stage
position (exactly as the engine threads that position's persisted state),
starting from the fresh state, never passes the same vertex id through
twice; and any arrival whose vertex id was already recorded is dropped
with a `'pull'` (requesting new input) and unchanged state. -/
theorem unique_no_vid_twice (inputs : List (Option Gremlin)) :
    ((uniqueRun inputs ⟨[]⟩).1.map (fun gr => gr.vertex.vid)).Nodup
    ∧ ∀ gr st, gr.vertex.vid ∈ st.visited →
        uniqueStep (some gr) st = (PipeResult.pull, st) := by
  refine ⟨(uniqueRun_spec inputs ⟨[]⟩).1, ?_⟩
  intro gr st hmem
  simp only [uniqueStep, if_pos hmem]

/-- Witness for C8: the same gremlin arriving twice is emitted once, and a
seen id is dropped with `'pull'`. -/
theorem unique_no_vid_twice_witness :
    ((uniqueRun [some gremlinAt1, some gremlinAt1] ⟨[]⟩).1.map
        (fun gr => gr.vertex.vid)).Nodup
    ∧ uniqueStep (some gremlinAt1) ⟨[1]⟩ = (PipeResult.pull, ⟨[1]⟩) :=
  ⟨(unique_no_vid_twice [some gremlinAt1, some gremlinAt1]).1,
   (unique_no_vid_twice []).2 gremlinAt1 ⟨[1]⟩ (by decide)⟩

/-- C9: on the scenario store, the query
`v(1).as("start").out("knows").back("start")` yields exactly the vertex
`{id:1, name:"a"}` (whose `_out` holds the `knows` edge): `back` returns
the traversal to the vertex checkpointed by `as`, round-tripping through
the `out` step. -/
theorem scenarioC_back_roundtrip :
    engineRun scenarioGraph [Step.vertexS [1], Step.asS "start",
        Step.outS (some "knows"), Step.backS "start"] 1000
      = [QueryResult.vertexR ⟨1, [("name", "a")], [⟨0, 1, 2, "knows", []⟩],
          []⟩] := by
  decide

/-- C10: for every store built through the insertion API, serializing it
to the snapshot (vertices without adjacency, edges with endpoint ids) and
rebuilding by re-inserting all vertices then all edges yields a store with
the same vertex ids and properties under every id, and the same composite
edge keys with matching endpoint ids, labels and properties under every
key. -/
theorem snapshot_roundtrip (ops : List Op) :
    sameVerticesUpTo (buildGraph ops)
      (fromSnapshot (jsonifySnapshot (buildGraph ops)))
    ∧ sameEdgesUpTo (buildGraph ops)
      (fromSnapshot (jsonifySnapshot (buildGraph ops))) :=
  roundtrip_of_GInv (buildGraph ops) (GInv_buildGraph ops)

end Dagoba
